import Mathlib

/-!
Verification development for the chat-room application (React/Express/Socket.IO).

Shallow embedding of the two stateful cores:

* the server event router (`server.ts`): connection registry (`users`, a JS
  `Map` from socket id to username, modelled as an insertion-ordered
  association list), the in-memory message log (`messages`), and one Lean
  function per `socket.on(...)` handler, returning the updated state together
  with the ordered list of emitted events;

* the client sync engine (`App.tsx`): the local message mirror and the three
  read-receipt triggers (merge-on-receive, tab visibility, intersection
  observer), each modelled as a function from the handler's inputs to the
  list of `read receipt` payloads it emits.

Non-deterministic environment inputs of the source (`uuidv4()`, `new Date()`)
are threaded as explicit parameters (`freshId`, `now`, timestamps as `Nat`).
JS `[...].sort` with an ascending numeric comparator is a stable ascending
sort; it is modelled with `List.insertionSort`, which places an element
before the first element it compares `≤` to and hence is stable in the same
sense. JS `String.prototype.trim` is modelled over the character list with
ASCII whitespace, which is faithful on every input appearing in the claims.
-/

namespace Chat

/-- A chat message record (`src/lib/types/Message.ts`): unique id, body,
sender (or `"System"`), creation timestamp, and the list of usernames who
have read it. -/
structure Message where
  id : String
  text : String
  sender : String
  timestamp : Nat
  readBy : List String
deriving DecidableEq, Repr

/-- A read-receipt payload (`src/lib/types/ReadReceipt.ts`). -/
structure ReadReceipt where
  messageId : String
  reader : String
deriving DecidableEq, Repr

/-- JS `Map.get`: the value at the first (only) entry with the given key. -/
def mapGet (m : List (String × String)) (k : String) : Option String :=
  (m.find? (fun e => e.1 == k)).map (fun e => e.2)

/-- JS `Map.set`: replace the value in place if the key is present (keeping
its insertion position), otherwise append a new entry. -/
def mapSet : List (String × String) → String → String → List (String × String)
  | [], k, v => [(k, v)]
  | e :: t, k, v => if e.1 == k then (k, v) :: t else e :: mapSet t k v

/-- JS `Map.delete`: remove the entry with the given key, if any. -/
def mapDelete : List (String × String) → String → List (String × String)
  | [], _ => []
  | e :: t, k => if e.1 == k then t else e :: mapDelete t k

/-- `getOnlineUsers` (server.ts): `Array.from(users.values())`, the usernames
in insertion order. -/
def getOnlineUsers (users : List (String × String)) : List String :=
  users.map (fun e => e.2)

/-- JS `String.prototype.trim`: strip leading and trailing whitespace. -/
def jsTrim (s : String) : String :=
  ⟨((s.data.dropWhile Char.isWhitespace).reverse.dropWhile Char.isWhitespace).reverse⟩

/-- Server state: the `users` registry (socket id → username) and the
append-only `messages` log. -/
structure ServerState where
  users : List (String × String)
  messages : List Message
deriving DecidableEq, Repr

/-- One emitted server-side event, in emission order:
`io.emit("chat message")`, `io.emit("message updated")`,
`io.emit("online users")`, or a history replay `socket.emit("chat message")`
targeted at the joining socket. -/
inductive SOut where
  | chatMessage (m : Message)
  | messageUpdated (m : Message)
  | onlineUsers (names : List String)
  | historyPush (sid : String) (m : Message)
deriving DecidableEq, Repr

/-- `messageHistoryLimit` (server.ts line 125). -/
def messageHistoryLimit : Nat := 50

/-- Timestamp order used by the history sort comparator
`(a, b) => time(a) - time(b)`. -/
def tsLE (a b : Message) : Prop := a.timestamp ≤ b.timestamp

instance : DecidableRel tsLE := fun a b => Nat.decLe a.timestamp b.timestamp

instance : IsTotal Message tsLE := ⟨fun a b => Nat.le_total a.timestamp b.timestamp⟩

instance : IsTrans Message tsLE := ⟨fun _ _ _ => Nat.le_trans⟩

/-- The history slice sent on join (server.ts lines 125-131): sort the log
ascending by timestamp, then `slice(-50)`. -/
def recentMessages (messages : List Message) : List Message :=
  let sortedMessages := List.insertionSort tsLE messages
  sortedMessages.drop (sortedMessages.length - messageHistoryLimit)

/-- `socket.on("user joined")` (server.ts lines 73-141): emit a join or
rename system message depending on the previous binding, rebind the socket,
replay recent history to the joining socket, broadcast the online list. -/
def onUserJoined (sid username freshId : String) (now : Nat) (st : ServerState) :
    ServerState × List SOut :=
  let previousUsername := mapGet st.users sid
  let step1 : List Message × List SOut :=
    match previousUsername with
    | some p =>
      if p ≠ username then
        let systemMessage : Message :=
          { id := freshId, text := p ++ " changed their name to " ++ username,
            sender := "System", timestamp := now, readBy := [username] }
        (st.messages ++ [systemMessage], [SOut.chatMessage systemMessage])
      else
        (st.messages, [])
    | none =>
      let systemMessage : Message :=
        { id := freshId, text := username ++ " joined the chat",
          sender := "System", timestamp := now, readBy := [username] }
      (st.messages ++ [systemMessage], [SOut.chatMessage systemMessage])
  let users' := mapSet st.users sid username
  (⟨users', step1.1⟩,
    step1.2 ++ (recentMessages step1.1).map (SOut.historyPush sid)
      ++ [SOut.onlineUsers (getOnlineUsers users')])

/-- `socket.on("change username")` (server.ts lines 148-178): if the names
differ and the new one is non-blank after trimming, append and broadcast a
rename system message, rebind, and broadcast the online list; otherwise
ignore the event. -/
def onChangeUsername (sid oldUsername newUsername freshId : String) (now : Nat)
    (st : ServerState) : ServerState × List SOut :=
  if oldUsername ≠ newUsername ∧ jsTrim newUsername ≠ "" then
    let systemMessage : Message :=
      { id := freshId, text := oldUsername ++ " changed their name to " ++ newUsername,
        sender := "System", timestamp := now, readBy := [newUsername] }
    let users' := mapSet st.users sid newUsername
    (⟨users', st.messages ++ [systemMessage]⟩,
      [SOut.chatMessage systemMessage, SOut.onlineUsers (getOnlineUsers users')])
  else
    (st, [])

/-- `socket.on("chat message")` (server.ts lines 185-203): build the full
message with `readBy = [sender]`, append it, broadcast it. -/
def onChatMessage (text sender freshId : String) (now : Nat) (st : ServerState) :
    ServerState × List SOut :=
  let fullMessage : Message :=
    { id := freshId, text := text, sender := sender, timestamp := now, readBy := [sender] }
  (⟨st.users, st.messages ++ [fullMessage]⟩, [SOut.chatMessage fullMessage])

/-- JS `Array.prototype.findIndex`: index of the first element satisfying
the predicate. -/
def findIndex (p : α → Bool) : List α → Option Nat
  | [] => none
  | x :: xs => if p x then some 0 else (findIndex p xs).map (· + 1)

/-- `socket.on("read receipt")` (server.ts lines 210-237): find the message
by id; if found and the reader is not yet in `readBy`, push the reader and
broadcast the whole updated record; otherwise do nothing. -/
def onReadReceipt (messageId reader : String) (st : ServerState) :
    ServerState × List SOut :=
  match findIndex (fun msg => msg.id == messageId) st.messages with
  | some messageIndex =>
    match st.messages[messageIndex]? with
    | some message =>
      if reader ∈ message.readBy then
        (st, [])
      else
        let updated : Message := { message with readBy := message.readBy ++ [reader] }
        (⟨st.users, st.messages.set messageIndex updated⟩, [SOut.messageUpdated updated])
    | none => (st, [])
  | none => (st, [])

/-- `socket.on("disconnect")` (server.ts lines 244-284): if the socket was
bound, append and broadcast the departure system message (empty `readBy`),
then delete the binding, then broadcast the online list. -/
def onDisconnect (sid freshId : String) (now : Nat) (st : ServerState) :
    ServerState × List SOut :=
  match mapGet st.users sid with
  | some username =>
    let systemMessage : Message :=
      { id := freshId, text := username ++ " left the chat",
        sender := "System", timestamp := now, readBy := [] }
    let users' := mapDelete st.users sid
    (⟨users', st.messages ++ [systemMessage]⟩,
      [SOut.chatMessage systemMessage, SOut.onlineUsers (getOnlineUsers users')])
  | none => (st, [])

/-- One inbound server event, with the environment inputs (`uuidv4`,
`new Date()`) explicit. -/
inductive SEvent where
  | userJoined (sid username freshId : String) (now : Nat)
  | changeUsername (sid oldUsername newUsername freshId : String) (now : Nat)
  | chatMessage (text sender freshId : String) (now : Nat)
  | readReceipt (messageId reader : String)
  | disconnect (sid freshId : String) (now : Nat)
deriving DecidableEq, Repr

/-- Dispatch an inbound event to its handler. -/
def serverStep : SEvent → ServerState → ServerState × List SOut
  | .userJoined sid u f n, st => onUserJoined sid u f n st
  | .changeUsername sid o nw f n, st => onChangeUsername sid o nw f n st
  | .chatMessage t s f n, st => onChatMessage t s f n st
  | .readReceipt mid r, st => onReadReceipt mid r st
  | .disconnect sid f n, st => onDisconnect sid f n st

/-- Whether an event is a read receipt. -/
def SEvent.isReadReceipt : SEvent → Bool
  | .readReceipt _ _ => true
  | _ => false

/-! ### Client sync engine (`App.tsx`) -/

/-- `handleChatMessage`, mirror part (App.tsx lines 63-72): insert the pushed
message unless an entry with the same id is already present. -/
def mergeChatMessage (msg : Message) (prevMessages : List Message) : List Message :=
  if prevMessages.any (fun m => m.id == msg.id) then prevMessages
  else prevMessages ++ [msg]

/-- `handleChatMessage`, emission part (App.tsx lines 74-82): auto-send a
read receipt when the username is set (non-empty), the sender is not the
current user, and the socket ref is non-null. JS truthiness of a string is
non-emptiness. -/
def chatMessageReceipts (username : String) (socketPresent : Bool) (msg : Message) :
    List ReadReceipt :=
  if username != "" && msg.sender != username && socketPresent then
    [⟨msg.id, username⟩]
  else []

/-- `handleMessageUpdated` (App.tsx lines 86-89): wholesale replacement by
id via `map`. -/
def handleMessageUpdated (updatedMsg : Message) (prevMessages : List Message) :
    List Message :=
  prevMessages.map (fun msg => if msg.id == updatedMsg.id then updatedMsg else msg)

/-- `handleVisibilityChange` (App.tsx lines 208-227): when the tab becomes
visible, the user is logged in and the socket connected, emit a receipt for
every mirrored message not sent by and not yet read by the current user, in
mirror order. -/
def visibilityChangeReceipts (visible : Bool) (username : String) (connected : Bool)
    (currentMessages : List Message) : List ReadReceipt :=
  if visible && username != "" && connected then
    (currentMessages.filter
        (fun msg => msg.sender != username && !(msg.readBy.contains username))).map
      (fun msg => ⟨msg.id, username⟩)
  else []

/-- `observerCallback` (App.tsx lines 255-281), for one intersecting entry
carrying `data-message-id = messageId`: emit a receipt only if the message
is found in the mirror, its sender is not the current user, and the current
user is not yet in its `readBy`. -/
def observerReceipt (username : String) (currentMessages : List Message)
    (messageId : String) : List ReadReceipt :=
  match currentMessages.find? (fun m => m.id == messageId) with
  | some message =>
    if message.sender != username && !(message.readBy.contains username) then
      [⟨messageId, username⟩]
    else []
  | none => []

/-! ### Concrete records used to evaluate the theorems on explicit inputs -/

/-- A message from Ana, read only by Ana. -/
def msgAna : Message :=
  { id := "m1", text := "hi", sender := "Ana", timestamp := 0, readBy := ["Ana"] }

/-- A message from Bob that Alice has not read. -/
def msgBobUnread : Message :=
  { id := "m2", text := "hey", sender := "Bob", timestamp := 5, readBy := ["Bob"] }

/-- A message from Bob that Alice has already read. -/
def msgBobRead : Message :=
  { id := "m3", text := "yo", sender := "Bob", timestamp := 6, readBy := ["Alice", "Bob"] }

/-- A small server state: one bound connection and one logged message. -/
def stA : ServerState := { users := [("s1", "Ana")], messages := [msgAna] }

/-! ### Helper lemmas -/

theorem findIndex_none_iff (p : α → Bool) (l : List α) :
    findIndex p l = none ↔ ∀ x ∈ l, p x = false := by
  induction l with
  | nil => simp [findIndex]
  | cons x xs ih =>
    cases hx : p x with
    | true => simp [findIndex, hx]
    | false =>
      simp only [findIndex, hx, Bool.false_eq_true, if_false, Option.map_eq_none',
        List.mem_cons]
      rw [← Option.map_eq_none' (f := (· + 1))]
      constructor
      · intro h y hy
        rcases hy with rfl | hy
        · exact hx
        · exact ih.mp (by simpa using h) y hy
      · intro h
        have : findIndex p xs = none := ih.mpr (fun y hy => h y (Or.inr hy))
        simp [this]

theorem findIndex_some_lt {p : α → Bool} {l : List α} {i : Nat}
    (h : findIndex p l = some i) : i < l.length := by
  induction l generalizing i with
  | nil => simp [findIndex] at h
  | cons x xs ih =>
    cases hx : p x with
    | true =>
      simp only [findIndex, hx, if_true] at h
      cases h
      simp
    | false =>
      simp only [findIndex, hx, Bool.false_eq_true, if_false,
        Option.map_eq_some'] at h
      obtain ⟨j, hj, rfl⟩ := h
      simpa using Nat.succ_lt_succ (ih hj)

theorem findIndex_some_get {p : α → Bool} {l : List α} {i : Nat}
    (h : findIndex p l = some i) (hi : i < l.length) :
    p (l.get ⟨i, hi⟩) = true := by
  induction l generalizing i with
  | nil => simp [findIndex] at h
  | cons x xs ih =>
    cases hx : p x with
    | true =>
      simp only [findIndex, hx, if_true] at h
      cases h
      exact hx
    | false =>
      simp only [findIndex, hx, Bool.false_eq_true, if_false,
        Option.map_eq_some'] at h
      obtain ⟨j, hj, rfl⟩ := h
      exact ih hj (by simpa using Nat.lt_of_succ_lt_succ hi)

theorem findIndex_set_self {p : α → Bool} {l : List α} {i : Nat} {a : α}
    (h : findIndex p l = some i) (ha : p a = true) :
    findIndex p (l.set i a) = some i := by
  induction l generalizing i with
  | nil => simp [findIndex] at h
  | cons x xs ih =>
    cases hx : p x with
    | true =>
      simp only [findIndex, hx, if_true] at h
      cases h
      simp [findIndex, ha]
    | false =>
      simp only [findIndex, hx, Bool.false_eq_true, if_false,
        Option.map_eq_some'] at h
      obtain ⟨j, hj, rfl⟩ := h
      simp [List.set, findIndex, hx, ih hj]

theorem mapGet_mapSet_self (m : List (String × String)) (k v : String) :
    mapGet (mapSet m k v) k = some v := by
  induction m with
  | nil => simp [mapGet, mapSet]
  | cons e t ih =>
    by_cases he : e.1 == k
    · simp [mapSet, he, mapGet]
    · simp only [mapSet, he, Bool.false_eq_true, if_neg, not_false_eq_true]
      simpa [mapGet, List.find?, he] using ih

/-- The keys of the registry. -/
def mapKeys (m : List (String × String)) : List String :=
  m.map (fun e => e.1)

theorem mapKeys_mapSet_subset (m : List (String × String)) (k v : String) :
    ∀ x ∈ mapKeys (mapSet m k v), x = k ∨ x ∈ mapKeys m := by
  induction m with
  | nil =>
    intro x hx
    simp only [mapSet, mapKeys, List.map_cons, List.map_nil,
      List.mem_singleton] at hx
    exact Or.inl hx
  | cons e t ih =>
    intro x hx
    cases he : e.1 == k with
    | true =>
      simp only [mapSet, he, if_true, mapKeys, List.map_cons, List.mem_cons] at hx
      rcases hx with rfl | hx
      · exact Or.inl rfl
      · exact Or.inr (by
          simp only [mapKeys, List.map_cons]
          exact List.mem_cons_of_mem _ hx)
    | false =>
      simp only [mapSet, he, Bool.false_eq_true, if_false, mapKeys,
        List.map_cons, List.mem_cons] at hx
      rcases hx with rfl | hx
      · exact Or.inr (by simp [mapKeys])
      · rcases ih x hx with h1 | h1
        · exact Or.inl h1
        · exact Or.inr (by
            simp only [mapKeys, List.map_cons]
            exact List.mem_cons_of_mem _ (by simpa [mapKeys] using h1))

theorem mapKeys_mapSet_nodup {m : List (String × String)} (k v : String)
    (h : (mapKeys m).Nodup) : (mapKeys (mapSet m k v)).Nodup := by
  induction m with
  | nil => simp [mapSet, mapKeys]
  | cons e t ih =>
    simp only [mapKeys, List.map_cons, List.nodup_cons] at h
    cases he : e.1 == k with
    | true =>
      have hek : e.1 = k := by simpa using he
      subst hek
      simpa [mapSet, mapKeys] using h
    | false =>
      have hne : e.1 ≠ k := by simpa using he
      have ht := ih h.2
      simp only [mapSet, he, Bool.false_eq_true, if_false, mapKeys,
        List.map_cons, List.nodup_cons]
      refine ⟨?_, ht⟩
      intro hmem
      rcases mapKeys_mapSet_subset t k v _ hmem with h1 | h1
      · exact hne h1
      · exact h.1 (by simpa [mapKeys] using h1)

theorem mapDelete_sublist (m : List (String × String)) (k : String) :
    (mapDelete m k).Sublist m := by
  induction m with
  | nil => simp [mapDelete]
  | cons e t ih =>
    by_cases he : e.1 == k
    · simp only [mapDelete, he, if_true]
      exact List.sublist_cons_self e t
    · simpa [mapDelete, he] using ih.cons₂ e

theorem mapKeys_mapDelete_nodup {m : List (String × String)} (k : String)
    (h : (mapKeys m).Nodup) : (mapKeys (mapDelete m k)).Nodup := by
  have hsub : (mapKeys (mapDelete m k)).Sublist (mapKeys m) :=
    (mapDelete_sublist m k).map _
  exact h.sublist hsub

theorem mapGet_of_mem {m : List (String × String)} {k v : String}
    (hnd : (mapKeys m).Nodup) (hmem : (k, v) ∈ m) : mapGet m k = some v := by
  induction m with
  | nil => simp at hmem
  | cons e t ih =>
    simp only [mapKeys, List.map_cons, List.nodup_cons] at hnd
    rcases List.mem_cons.mp hmem with rfl | hmem'
    · simp [mapGet, List.find?]
    · have hne : e.1 ≠ k := by
        intro hek
        exact hnd.1 (by
          simpa [mapKeys, hek] using List.mem_map_of_mem (fun x => x.1) hmem')
      have := ih hnd.2 hmem'
      simpa [mapGet, List.find?, show (e.1 == k) = false by simpa using hne] using this

theorem mem_of_mapGet {m : List (String × String)} {k v : String}
    (h : mapGet m k = some v) : (k, v) ∈ m := by
  induction m with
  | nil => simp [mapGet] at h
  | cons e t ih =>
    by_cases he : e.1 == k
    · have hek : e.1 = k := by simpa using he
      simp only [mapGet, List.find?, he, Option.map_some] at h
      cases h
      exact List.mem_cons.mpr (Or.inl (by
        cases e
        simpa using hek.symm))
    · simp only [mapGet, List.find?, he] at h
      exact List.mem_cons.mpr (Or.inr (ih h))

/-- Merging a batch of deliveries one by one keeps mirror ids duplicate-free. -/
theorem foldl_merge_nodup (deliveries : List Message) :
    ∀ acc : List Message, (acc.map Message.id).Nodup →
      (((deliveries.foldl (fun a m => mergeChatMessage m a) acc)).map Message.id).Nodup := by
  induction deliveries with
  | nil => intro acc h; simpa using h
  | cons d ds ih =>
    intro acc h
    simp only [List.foldl_cons]
    refine ih (mergeChatMessage d acc) ?_
    unfold mergeChatMessage
    cases hany : acc.any (fun m => m.id == d.id) with
    | true => simpa using h
    | false =>
      simp only [Bool.false_eq_true, if_false, List.map_append, List.map_cons,
        List.map_nil]
      rw [List.nodup_append]
      refine ⟨h, List.nodup_singleton _, ?_⟩
      intro x hx
      simp only [List.mem_singleton]
      intro hxd
      subst hxd
      obtain ⟨m, hm, hmid⟩ := List.mem_map.mp hx
      have := List.any_eq_false.mp hany m hm
      simp [hmid] at this

/-! ### Claims -/

/-- C10: a `message updated` push whose id matches no mirror entry leaves the
mirror completely unchanged — the record is dropped, never inserted. -/
theorem messageUpdated_unknown_id_noop (updatedMsg : Message) (mirror : List Message)
    (h : ∀ m ∈ mirror, m.id ≠ updatedMsg.id) :
    handleMessageUpdated updatedMsg mirror = mirror := by
  have hcong :
      mirror.map (fun msg => if msg.id == updatedMsg.id then updatedMsg else msg)
        = mirror.map (fun msg => msg) :=
    List.map_congr_left (fun m hm => by
      have hne : (m.id == updatedMsg.id) = false := by simpa using h m hm
      simp [hne])
  simpa [handleMessageUpdated] using hcong

/-- Witness for C10 at an explicit input. -/
theorem messageUpdated_unknown_id_noop_witness :
    handleMessageUpdated msgBobUnread [msgAna] = [msgAna] :=
  messageUpdated_unknown_id_noop msgBobUnread [msgAna] (by decide)

/-- C9: the client mirror merge is idempotent under duplicate delivery: a
push whose id is already mirrored is a no-op, ids stay duplicate-free along
every delivery sequence, and merging the same push twice equals merging it
once. -/
theorem mirror_merge_idempotent (msg : Message) (mirror : List Message)
    (deliveries : List Message) (h : (mirror.map Message.id).Nodup) :
    ((mergeChatMessage msg mirror).map Message.id).Nodup
    ∧ mergeChatMessage msg (mergeChatMessage msg mirror) = mergeChatMessage msg mirror
    ∧ (((deliveries.foldl (fun acc m => mergeChatMessage m acc) [])).map Message.id).Nodup := by
  refine ⟨?_, ?_, foldl_merge_nodup deliveries [] (by simp)⟩
  · unfold mergeChatMessage
    cases hany : mirror.any (fun m => m.id == msg.id) with
    | true => simpa using h
    | false =>
      simp only [Bool.false_eq_true, if_false, List.map_append, List.map_cons,
        List.map_nil]
      rw [List.nodup_append]
      refine ⟨h, List.nodup_singleton _, ?_⟩
      intro x hx
      simp only [List.mem_singleton]
      intro hxd
      subst hxd
      obtain ⟨m, hm, hmid⟩ := List.mem_map.mp hx
      have := List.any_eq_false.mp hany m hm
      simp [hmid] at this
  · unfold mergeChatMessage
    cases hany : mirror.any (fun m => m.id == msg.id) with
    | true => simp [hany]
    | false =>
      simp only [Bool.false_eq_true, if_false]
      have : (mirror ++ [msg]).any (fun m => m.id == msg.id) = true := by
        simp [List.any_append]
      simp [this]

/-- Witness for C9 at an explicit input: duplicate delivery of the same
message to an empty mirror. -/
theorem mirror_merge_idempotent_witness :
    ((mergeChatMessage msgAna []).map Message.id).Nodup
    ∧ mergeChatMessage msgAna (mergeChatMessage msgAna []) = mergeChatMessage msgAna []
    ∧ ((([msgAna, msgAna].foldl (fun acc m => mergeChatMessage m acc) [])).map
        Message.id).Nodup :=
  mirror_merge_idempotent msgAna [] [msgAna, msgAna] (by simp)

/-- Counterexample to C3 as stated: on merge of a newly received message, the
client emits a read receipt even though the current user is already in the
message's `readBy` — the claimed `readBy` guard is absent from that trigger. -/
theorem chatMessage_trigger_ignores_readBy :
    chatMessageReceipts "Alice" true msgBobRead = [⟨"m3", "Alice"⟩]
    ∧ "Alice" ∈ msgBobRead.readBy := by
  constructor
  · rfl
  · decide

/-- C3 amended: the visibility and intersection triggers are guarded by all
three conditions (message mirrored, sender not self, self not in `readBy`);
the merge trigger is guarded only by a set username, a live socket and
`sender ≠ self`, and can emit for a message whose `readBy` already contains
the current user. -/
theorem readReceipt_trigger_guards (username : String)
    (socketPresent visible connected : Bool) (msg : Message)
    (mirror : List Message) (messageId : String) :
    (∀ rr ∈ visibilityChangeReceipts visible username connected mirror,
       rr.reader = username
       ∧ ∃ m ∈ mirror, m.id = rr.messageId ∧ m.sender ≠ username ∧ username ∉ m.readBy)
    ∧ (∀ rr ∈ observerReceipt username mirror messageId,
       rr.reader = username
       ∧ ∃ m ∈ mirror, m.id = rr.messageId ∧ m.sender ≠ username ∧ username ∉ m.readBy)
    ∧ (chatMessageReceipts username socketPresent msg
        = if username ≠ "" ∧ msg.sender ≠ username ∧ socketPresent = true
          then [⟨msg.id, username⟩] else []) := by
  refine ⟨?_, ?_, ?_⟩
  · intro rr hrr
    unfold visibilityChangeReceipts at hrr
    cases hg : (visible && username != "" && connected) with
    | false => simp [hg] at hrr
    | true =>
      simp only [hg, if_true] at hrr
      obtain ⟨m, hm, rfl⟩ := List.mem_map.mp hrr
      have hm' := List.mem_filter.mp hm
      refine ⟨rfl, m, hm'.1, rfl, ?_, ?_⟩
      · have := hm'.2
        simp only [Bool.and_eq_true, bne_iff_ne, ne_eq] at this
        exact this.1
      · have := hm'.2
        simp only [Bool.and_eq_true, Bool.not_eq_true'] at this
        intro hmem
        have h2 := this.2
        simp [hmem] at h2
  · intro rr hrr
    unfold observerReceipt at hrr
    cases hf : mirror.find? (fun m => m.id == messageId) with
    | none => simp [hf] at hrr
    | some message =>
      rw [hf] at hrr
      by_cases hs : message.sender = username
      · simp [hs] at hrr
      · by_cases hr : username ∈ message.readBy
        · simp [hs, hr] at hrr
        · have hcond :
              (message.sender != username && !(message.readBy.contains username)) = true := by
            simp [hs, hr]
          simp only [hcond, if_true, List.mem_singleton] at hrr
          subst hrr
          have hmem := List.mem_of_find?_eq_some hf
          have hid : (message.id == messageId) = true :=
            List.find?_some (p := fun m : Message => m.id == messageId) hf
          exact ⟨rfl, message, hmem, by simpa using hid, hs, hr⟩
  · cases socketPresent with
    | false => simp [chatMessageReceipts]
    | true =>
      by_cases h1 : username = ""
      · simp [chatMessageReceipts, h1]
      · by_cases h2 : msg.sender = username
        · simp [chatMessageReceipts, h1, h2]
        · simp [chatMessageReceipts, h1, h2]

/-- C6: when a bound connection disconnects, the handler appends the
"X left the chat" system message with empty `readBy`, broadcasts it first,
unbinds the connection, and only then broadcasts the online set computed
from the already-unbound registry. -/
theorem disconnect_message_before_online_set (st : ServerState)
    (sid freshId x : String) (now : Nat) (h : mapGet st.users sid = some x) :
    onDisconnect sid freshId now st =
      (⟨mapDelete st.users sid,
         st.messages
           ++ [{ id := freshId, text := x ++ " left the chat", sender := "System",
                 timestamp := now, readBy := [] }]⟩,
       [SOut.chatMessage
          { id := freshId, text := x ++ " left the chat", sender := "System",
            timestamp := now, readBy := [] },
        SOut.onlineUsers (getOnlineUsers (mapDelete st.users sid))]) := by
  simp [onDisconnect, h]

/-- Witness for C6 at an explicit input. -/
theorem disconnect_message_before_online_set_witness :
    onDisconnect "s1" "m9" 7 stA =
      (⟨[], [msgAna,
             { id := "m9", text := "Ana left the chat", sender := "System",
               timestamp := 7, readBy := [] }]⟩,
       [SOut.chatMessage
          { id := "m9", text := "Ana left the chat", sender := "System",
            timestamp := 7, readBy := [] },
        SOut.onlineUsers []]) := by
  have h := disconnect_message_before_online_set stA "s1" "m9" "Ana" 7 (by decide)
  simpa [stA, mapDelete, getOnlineUsers] using h

/-- C8: a `change username` event with a blank-after-trimming new name or
with `new = old` is silently dropped (no message, no rebind, no broadcast);
otherwise exactly one "old changed their name to new" system message with
`readBy = [new]` is appended and broadcast, the connection is rebound to the
new name, and the refreshed online set is broadcast. -/
theorem changeUsername_cases (st : ServerState)
    (sid oldUsername newUsername freshId : String) (now : Nat) :
    ((oldUsername = newUsername ∨ jsTrim newUsername = "") →
       onChangeUsername sid oldUsername newUsername freshId now st = (st, []))
    ∧ (oldUsername ≠ newUsername → jsTrim newUsername ≠ "" →
       onChangeUsername sid oldUsername newUsername freshId now st =
           (⟨mapSet st.users sid newUsername,
              st.messages
                ++ [{ id := freshId,
                      text := oldUsername ++ " changed their name to " ++ newUsername,
                      sender := "System", timestamp := now, readBy := [newUsername] }]⟩,
            [SOut.chatMessage
               { id := freshId,
                 text := oldUsername ++ " changed their name to " ++ newUsername,
                 sender := "System", timestamp := now, readBy := [newUsername] },
             SOut.onlineUsers (getOnlineUsers (mapSet st.users sid newUsername))])
         ∧ mapGet (mapSet st.users sid newUsername) sid = some newUsername) := by
  constructor
  · intro h
    have hneg : ¬(oldUsername ≠ newUsername ∧ jsTrim newUsername ≠ "") := by
      rcases h with h | h
      · intro hc; exact hc.1 h
      · intro hc; exact hc.2 h
    simp [onChangeUsername, hneg]
  · intro h1 h2
    refine ⟨?_, mapGet_mapSet_self st.users sid newUsername⟩
    simp [onChangeUsername, h1, h2]

/-- Witness for C8 at an explicit input: renaming Ana to Bea. -/
theorem changeUsername_cases_witness :
    onChangeUsername "s1" "Ana" "Bea" "m5" 3 stA =
      (⟨[("s1", "Bea")],
         [msgAna,
          { id := "m5", text := "Ana changed their name to Bea", sender := "System",
            timestamp := 3, readBy := ["Bea"] }]⟩,
       [SOut.chatMessage
          { id := "m5", text := "Ana changed their name to Bea", sender := "System",
            timestamp := 3, readBy := ["Bea"] },
        SOut.onlineUsers ["Bea"]]) := by
  have h := (changeUsername_cases stA "s1" "Ana" "Bea" "m5" 3).2 (by decide) (by decide)
  simpa [stA, mapSet, getOnlineUsers] using h.1

/-- Witness for the amended C3 at an explicit input: the visibility trigger
fires for Bob's unread message and carries all three guards. -/
theorem readReceipt_trigger_guards_witness :
    (⟨"m2", "Alice"⟩ : ReadReceipt).reader = "Alice"
    ∧ ∃ m ∈ [msgBobUnread], m.id = (⟨"m2", "Alice"⟩ : ReadReceipt).messageId
        ∧ m.sender ≠ "Alice" ∧ "Alice" ∉ m.readBy :=
  (readReceipt_trigger_guards "Alice" true true true msgBobUnread [msgBobUnread]
      "m2").1 ⟨"m2", "Alice"⟩ (by decide)

/-- C1: processing a read receipt adds the reader and broadcasts the updated
full message exactly when the id is found in the log and the reader is not
yet in that message's `readBy`; for an unknown id or an already-present
reader the handler is a total no-op (state unchanged, nothing emitted, no
failure — the handler is a total function); applying the same receipt twice
changes the state at most once. -/
theorem readReceipt_adds_iff (st : ServerState) (messageId reader : String) :
    ((∀ m ∈ st.messages, m.id ≠ messageId) →
       onReadReceipt messageId reader st = (st, []))
    ∧ (∀ i (hi : i < st.messages.length),
        findIndex (fun m => m.id == messageId) st.messages = some i →
        ((reader ∈ (st.messages.get ⟨i, hi⟩).readBy →
            onReadReceipt messageId reader st = (st, []))
         ∧ (reader ∉ (st.messages.get ⟨i, hi⟩).readBy →
            onReadReceipt messageId reader st =
              (⟨st.users,
                 st.messages.set i
                   { st.messages.get ⟨i, hi⟩ with
                     readBy := (st.messages.get ⟨i, hi⟩).readBy ++ [reader] }⟩,
               [SOut.messageUpdated
                  { st.messages.get ⟨i, hi⟩ with
                    readBy := (st.messages.get ⟨i, hi⟩).readBy ++ [reader] }]))))
    ∧ (onReadReceipt messageId reader (onReadReceipt messageId reader st).1).1
        = (onReadReceipt messageId reader st).1 := by
  refine ⟨?_, ?_, ?_⟩
  · intro h
    have hnone : findIndex (fun m => m.id == messageId) st.messages = none :=
      (findIndex_none_iff _ _).mpr (fun m hm => by simpa using h m hm)
    simp [onReadReceipt, hnone]
  · intro i hi hfi
    have hget : st.messages[i]? = some (st.messages.get ⟨i, hi⟩) := by
      rw [List.getElem?_eq_getElem hi]
      simp [List.get_eq_getElem]
    constructor
    · intro hmem
      have hmem' : reader ∈ st.messages[i].readBy := by
        simpa [List.get_eq_getElem] using hmem
      simp [onReadReceipt, hfi, hget, hmem']
    · intro hmem
      have hmem' : reader ∉ st.messages[i].readBy := by
        simpa [List.get_eq_getElem] using hmem
      simp [onReadReceipt, hfi, hget, hmem']
  · cases hfi : findIndex (fun m => m.id == messageId) st.messages with
    | none => simp [onReadReceipt, hfi]
    | some i =>
      have hi : i < st.messages.length := findIndex_some_lt hfi
      have hget : st.messages[i]? = some (st.messages.get ⟨i, hi⟩) := by
        rw [List.getElem?_eq_getElem hi]
        simp [List.get_eq_getElem]
      by_cases hmem : reader ∈ (st.messages.get ⟨i, hi⟩).readBy
      · have hmem' : reader ∈ st.messages[i].readBy := by
          simpa [List.get_eq_getElem] using hmem
        simp [onReadReceipt, hfi, hget, hmem']
      · have hmem' : reader ∉ st.messages[i].readBy := by
          simpa [List.get_eq_getElem] using hmem
        have hfirst : onReadReceipt messageId reader st =
            (⟨st.users,
               st.messages.set i
                 { st.messages.get ⟨i, hi⟩ with
                   readBy := (st.messages.get ⟨i, hi⟩).readBy ++ [reader] }⟩,
             [SOut.messageUpdated
                { st.messages.get ⟨i, hi⟩ with
                  readBy := (st.messages.get ⟨i, hi⟩).readBy ++ [reader] }]) := by
          simp [onReadReceipt, hfi, hget, hmem']
      -- second application: the same index is found again, and the reader
      -- is now present, so the state is left unchanged
        set updated : Message :=
          { st.messages.get ⟨i, hi⟩ with
            readBy := (st.messages.get ⟨i, hi⟩).readBy ++ [reader] } with hupd
        have hp : (fun m : Message => m.id == messageId) updated = true := by
          have := findIndex_some_get hfi hi
          simpa [hupd] using this
        have hfi2 : findIndex (fun m : Message => m.id == messageId)
            (st.messages.set i updated) = some i :=
          findIndex_set_self hfi hp
        have hi2 : i < (st.messages.set i updated).length := by
          simpa [List.length_set] using hi
        have hget2 : (st.messages.set i updated)[i]? = some updated :=
          List.getElem?_set_self hi
        have hmem2 : reader ∈ updated.readBy := by
          simp [hupd]
        rw [hfirst]
        simp [onReadReceipt, hfi2, hget2, hmem2]

/-- Witness for C1 at an explicit input: Bea's receipt for `m1` is applied
once and the duplicate is dropped. -/
theorem readReceipt_adds_iff_witness :
    onReadReceipt "m1" "Bea" stA =
      (⟨[("s1", "Ana")],
         [{ id := "m1", text := "hi", sender := "Ana", timestamp := 0,
            readBy := ["Ana", "Bea"] }]⟩,
       [SOut.messageUpdated
          { id := "m1", text := "hi", sender := "Ana", timestamp := 0,
            readBy := ["Ana", "Bea"] }])
    ∧ (onReadReceipt "m1" "Bea" (onReadReceipt "m1" "Bea" stA).1).1
        = (onReadReceipt "m1" "Bea" stA).1 := by
  have h := readReceipt_adds_iff stA "m1" "Bea"
  refine ⟨?_, h.2.2⟩
  have h2 := (h.2.1 0 (by decide) (by decide)).2 (by decide)
  simpa [stA, msgAna] using h2

/-- C4: a `user joined` event for name `N` appends and broadcasts exactly one
"N joined the chat" system message (readBy = [N]) when the connection was
unbound, exactly one "P changed their name to N" system message when it was
bound to a different `P`, and no system message when it was already bound to
`N`; in all three cases the connection ends up bound to `N`. -/
theorem userJoined_cases (st : ServerState) (sid username freshId p : String)
    (now : Nat) :
    (mapGet st.users sid = none →
       onUserJoined sid username freshId now st =
         (⟨mapSet st.users sid username,
            st.messages
              ++ [{ id := freshId, text := username ++ " joined the chat",
                    sender := "System", timestamp := now, readBy := [username] }]⟩,
          SOut.chatMessage
              { id := freshId, text := username ++ " joined the chat",
                sender := "System", timestamp := now, readBy := [username] }
            :: ((recentMessages
                  (st.messages
                    ++ [{ id := freshId, text := username ++ " joined the chat",
                          sender := "System", timestamp := now,
                          readBy := [username] }])).map (SOut.historyPush sid)
              ++ [SOut.onlineUsers (getOnlineUsers (mapSet st.users sid username))])))
    ∧ (mapGet st.users sid = some p → p ≠ username →
       onUserJoined sid username freshId now st =
         (⟨mapSet st.users sid username,
            st.messages
              ++ [{ id := freshId,
                    text := p ++ " changed their name to " ++ username,
                    sender := "System", timestamp := now, readBy := [username] }]⟩,
          SOut.chatMessage
              { id := freshId, text := p ++ " changed their name to " ++ username,
                sender := "System", timestamp := now, readBy := [username] }
            :: ((recentMessages
                  (st.messages
                    ++ [{ id := freshId,
                          text := p ++ " changed their name to " ++ username,
                          sender := "System", timestamp := now,
                          readBy := [username] }])).map (SOut.historyPush sid)
              ++ [SOut.onlineUsers (getOnlineUsers (mapSet st.users sid username))])))
    ∧ (mapGet st.users sid = some username →
       onUserJoined sid username freshId now st =
         (⟨mapSet st.users sid username, st.messages⟩,
          (recentMessages st.messages).map (SOut.historyPush sid)
            ++ [SOut.onlineUsers (getOnlineUsers (mapSet st.users sid username))]))
    ∧ mapGet (onUserJoined sid username freshId now st).1.users sid = some username := by
  refine ⟨?_, ?_, ?_, ?_⟩
  · intro h
    simp [onUserJoined, h]
  · intro h hne
    simp [onUserJoined, h, hne]
  · intro h
    simp [onUserJoined, h]
  · have : (onUserJoined sid username freshId now st).1.users
        = mapSet st.users sid username := by
      simp [onUserJoined]
    rw [this]
    exact mapGet_mapSet_self st.users sid username

/-- Witness for C4 at an explicit input: a fresh join of Bea on an unbound
socket. -/
theorem userJoined_cases_witness :
    onUserJoined "s2" "Bea" "m7" 2 stA =
      (⟨[("s1", "Ana"), ("s2", "Bea")],
         [msgAna,
          { id := "m7", text := "Bea joined the chat", sender := "System",
            timestamp := 2, readBy := ["Bea"] }]⟩,
       SOut.chatMessage
           { id := "m7", text := "Bea joined the chat", sender := "System",
             timestamp := 2, readBy := ["Bea"] }
         :: (recentMessages
              [msgAna,
               { id := "m7", text := "Bea joined the chat", sender := "System",
                 timestamp := 2, readBy := ["Bea"] }]).map (SOut.historyPush "s2")
         ++ [SOut.onlineUsers ["Ana", "Bea"]]) := by
  have h := (userJoined_cases stA "s2" "Bea" "m7" "" 2).1 (by decide)
  simpa [stA, mapSet, getOnlineUsers] using h

/-- The history slice never exceeds the 50-record limit. -/
theorem recentMessages_length_le (l : List Message) :
    (recentMessages l).length ≤ messageHistoryLimit := by
  unfold recentMessages
  simp only [List.length_drop]
  omega

/-- The history slice is ascending by timestamp. -/
theorem recentMessages_sorted (l : List Message) :
    List.Pairwise tsLE (recentMessages l) := by
  unfold recentMessages
  exact List.Pairwise.sublist (List.drop_sublist _ _) (List.sorted_insertionSort tsLE l)

/-- Every replayed record comes from the log. -/
theorem recentMessages_mem (l : List Message) : ∀ m ∈ recentMessages l, m ∈ l := by
  intro m hm
  unfold recentMessages at hm
  exact (List.perm_insertionSort tsLE l).subset ((List.drop_sublist _ _).subset hm)

/-- C7: on every join the history replay is a sequence of individual pushes
to the joining socket, one per record, ascending by timestamp, at most 50
records, all drawn from the log; the log itself is only extended, never
truncated. -/
theorem historyReplay (st : ServerState) (sid username freshId : String) (now : Nat) :
    ∃ joinOuts : List SOut,
      (onUserJoined sid username freshId now st).2 =
        joinOuts
          ++ ((recentMessages (onUserJoined sid username freshId now st).1.messages).map
                (SOut.historyPush sid)
            ++ [SOut.onlineUsers
                  (getOnlineUsers (onUserJoined sid username freshId now st).1.users)])
      ∧ (recentMessages (onUserJoined sid username freshId now st).1.messages).length
          ≤ messageHistoryLimit
      ∧ List.Pairwise tsLE
          (recentMessages (onUserJoined sid username freshId now st).1.messages)
      ∧ (∀ m ∈ recentMessages (onUserJoined sid username freshId now st).1.messages,
          m ∈ (onUserJoined sid username freshId now st).1.messages)
      ∧ st.messages <+: (onUserJoined sid username freshId now st).1.messages := by
  cases hprev : mapGet st.users sid with
  | none =>
    refine ⟨[SOut.chatMessage
        { id := freshId, text := username ++ " joined the chat", sender := "System",
          timestamp := now, readBy := [username] }],
      ?_, recentMessages_length_le _, recentMessages_sorted _, recentMessages_mem _, ?_⟩
    · simp [onUserJoined, hprev]
    · have hmsgs : (onUserJoined sid username freshId now st).1.messages =
          st.messages
            ++ [{ id := freshId, text := username ++ " joined the chat",
                  sender := "System", timestamp := now, readBy := [username] }] := by
        simp [onUserJoined, hprev]
      rw [hmsgs]
      exact ⟨_, rfl⟩
  | some p =>
    by_cases hne : p = username
    · subst hne
      refine ⟨[], ?_, recentMessages_length_le _, recentMessages_sorted _,
        recentMessages_mem _, ?_⟩
      · simp [onUserJoined, hprev]
      · have hmsgs : (onUserJoined sid p freshId now st).1.messages = st.messages := by
          simp [onUserJoined, hprev]
        rw [hmsgs]
    · refine ⟨[SOut.chatMessage
          { id := freshId, text := p ++ " changed their name to " ++ username,
            sender := "System", timestamp := now, readBy := [username] }],
        ?_, recentMessages_length_le _, recentMessages_sorted _, recentMessages_mem _, ?_⟩
      · simp [onUserJoined, hprev, hne]
      · have hmsgs : (onUserJoined sid username freshId now st).1.messages =
            st.messages
              ++ [{ id := freshId, text := p ++ " changed their name to " ++ username,
                    sender := "System", timestamp := now, readBy := [username] }] := by
          simp [onUserJoined, hprev, hne]
        rw [hmsgs]
        exact ⟨_, rfl⟩

/-- Witness for C7 at an explicit input: after Bea's join the replay is
bounded and the pre-existing record is still in the log. -/
theorem historyReplay_witness :
    (recentMessages (onUserJoined "s2" "Bea" "m7" 2 stA).1.messages).length
        ≤ messageHistoryLimit
    ∧ msgAna ∈ (onUserJoined "s2" "Bea" "m7" 2 stA).1.messages := by
  obtain ⟨joinOuts, _, h2, _, h4, _⟩ := historyReplay stA "s2" "Bea" "m7" 2
  exact ⟨h2, h4 msgAna (by decide)⟩

/-- C2: a name is in the `online users` payload exactly when some live
connection is bound to it; every bind (join, rename) and unbind (disconnect
of a bound socket) ends with the broadcast of the payload recomputed from
the post-transition registry; registry keys stay duplicate-free under these
transitions; and with two connections bound to "Ana", unbinding one leaves
"Ana" in the payload. -/
theorem onlineUsers_exact_set (users : List (String × String)) (st : ServerState)
    (sid username oldU newU freshId x : String) (now : Nat) :
    ((mapKeys users).Nodup →
       ∀ n, n ∈ getOnlineUsers users ↔ ∃ c, mapGet users c = some n)
    ∧ ((onUserJoined sid username freshId now st).2.getLast?
        = some (SOut.onlineUsers
            (getOnlineUsers (onUserJoined sid username freshId now st).1.users)))
    ∧ (oldU ≠ newU → jsTrim newU ≠ "" →
        (onChangeUsername sid oldU newU freshId now st).2.getLast?
          = some (SOut.onlineUsers
              (getOnlineUsers (onChangeUsername sid oldU newU freshId now st).1.users)))
    ∧ (mapGet st.users sid = some x →
        (onDisconnect sid freshId now st).2.getLast?
          = some (SOut.onlineUsers
              (getOnlineUsers (onDisconnect sid freshId now st).1.users)))
    ∧ ((mapKeys st.users).Nodup →
        (mapKeys (onUserJoined sid username freshId now st).1.users).Nodup
        ∧ (mapKeys (onChangeUsername sid oldU newU freshId now st).1.users).Nodup
        ∧ (mapKeys (onDisconnect sid freshId now st).1.users).Nodup)
    ∧ "Ana" ∈ getOnlineUsers (mapDelete [("s1", "Ana"), ("s2", "Ana")] "s1") := by
  refine ⟨?_, ?_, ?_, ?_, ?_, by decide⟩
  · intro hnd n
    constructor
    · intro hn
      obtain ⟨e, he, rfl⟩ := List.mem_map.mp hn
      exact ⟨e.1, mapGet_of_mem hnd (by simpa using he)⟩
    · rintro ⟨c, hc⟩
      exact List.mem_map.mpr ⟨(c, n), mem_of_mapGet hc, rfl⟩
  · show (onUserJoined sid username freshId now st).2.getLast? = _
    cases hprev : mapGet st.users sid with
    | none =>
      simp only [onUserJoined, hprev]
      rw [List.getLast?_concat]
    | some p =>
      by_cases hne : p = username
      · subst hne
        simp only [onUserJoined, hprev, ne_eq, not_true_eq_false, if_false]
        rw [List.getLast?_concat]
      · simp only [onUserJoined, hprev, ne_eq, hne, not_false_eq_true, if_true]
        rw [List.getLast?_concat]
  · intro h1 h2
    have hg : oldU ≠ newU ∧ jsTrim newU ≠ "" := ⟨h1, h2⟩
    simp [onChangeUsername, hg]
  · intro hmap
    simp [onDisconnect, hmap]
  · intro hnd
    refine ⟨?_, ?_, ?_⟩
    · have : (onUserJoined sid username freshId now st).1.users
          = mapSet st.users sid username := by
        simp [onUserJoined]
      rw [this]
      exact mapKeys_mapSet_nodup _ _ hnd
    · by_cases hg : oldU ≠ newU ∧ jsTrim newU ≠ ""
      · have : (onChangeUsername sid oldU newU freshId now st).1.users
            = mapSet st.users sid newU := by
          simp [onChangeUsername, hg]
        rw [this]
        exact mapKeys_mapSet_nodup _ _ hnd
      · have : (onChangeUsername sid oldU newU freshId now st).1.users = st.users := by
          simp [onChangeUsername, hg]
        rw [this]
        exact hnd
    · cases hmap : mapGet st.users sid with
      | none =>
        have : (onDisconnect sid freshId now st).1.users = st.users := by
          simp [onDisconnect, hmap]
        rw [this]
        exact hnd
      | some y =>
        have : (onDisconnect sid freshId now st).1.users = mapDelete st.users sid := by
          simp [onDisconnect, hmap]
        rw [this]
        exact mapKeys_mapDelete_nodup _ hnd

/-- Witness for C2 at an explicit input: two connections share "Ana"; the
payload membership matches the bound-name predicate, and the disconnect
broadcast ends with the refreshed online list. -/
theorem onlineUsers_exact_set_witness :
    ("Ana" ∈ getOnlineUsers [("s1", "Ana"), ("s2", "Ana")]
      ↔ ∃ c, mapGet [("s1", "Ana"), ("s2", "Ana")] c = some "Ana")
    ∧ (onDisconnect "s1" "m9" 7 stA).2.getLast?
        = some (SOut.onlineUsers
            (getOnlineUsers (onDisconnect "s1" "m9" 7 stA).1.users)) := by
  have h := onlineUsers_exact_set [("s1", "Ana"), ("s2", "Ana")] stA
    "s1" "Bea" "Ana" "Bea" "m9" "Ana" 7
  exact ⟨h.1 (by decide) "Ana", h.2.2.2.1 (by decide)⟩

/-- Values at the same index of two lists agree when their optional lookups
agree. -/
theorem get_eq_of_getElem?_eq {l l' : List α} {i : Nat}
    (hi : i < l.length) (hi' : i < l'.length) (h : l'[i]? = l[i]?) :
    l'.get ⟨i, hi'⟩ = l.get ⟨i, hi⟩ := by
  rw [List.getElem?_eq_getElem hi, List.getElem?_eq_getElem hi'] at h
  simpa [List.get_eq_getElem] using Option.some.inj h

/-- Every event either purely appends to the log, or is a read receipt that
rewrites exactly one record by pushing one reader onto its `readBy`. -/
theorem serverStep_messages_shape (e : SEvent) (st : ServerState) :
    (∃ t, (serverStep e st).1.messages = st.messages ++ t)
    ∨ (e.isReadReceipt = true
       ∧ ∃ i, ∃ hi : i < st.messages.length, ∃ r,
          (serverStep e st).1.messages =
            st.messages.set i
              { st.messages.get ⟨i, hi⟩ with
                readBy := (st.messages.get ⟨i, hi⟩).readBy ++ [r] }) := by
  cases e with
  | userJoined sid username freshId now =>
    cases hprev : mapGet st.users sid with
    | none =>
      exact Or.inl ⟨[{ id := freshId, text := username ++ " joined the chat",
                       sender := "System", timestamp := now, readBy := [username] }],
        by simp [serverStep, onUserJoined, hprev]⟩
    | some p =>
      by_cases hne : p = username
      · subst hne
        exact Or.inl ⟨[], by simp [serverStep, onUserJoined, hprev]⟩
      · exact Or.inl ⟨[{ id := freshId,
                         text := p ++ " changed their name to " ++ username,
                         sender := "System", timestamp := now,
                         readBy := [username] }],
          by simp [serverStep, onUserJoined, hprev, hne]⟩
  | changeUsername sid oldU newU freshId now =>
    by_cases hg : oldU ≠ newU ∧ jsTrim newU ≠ ""
    · exact Or.inl ⟨[{ id := freshId,
                       text := oldU ++ " changed their name to " ++ newU,
                       sender := "System", timestamp := now, readBy := [newU] }],
        by simp [serverStep, onChangeUsername, hg]⟩
    · exact Or.inl ⟨[], by simp [serverStep, onChangeUsername, hg]⟩
  | chatMessage text sender freshId now =>
    exact Or.inl ⟨[{ id := freshId, text := text, sender := sender,
                     timestamp := now, readBy := [sender] }],
      by simp [serverStep, onChatMessage]⟩
  | disconnect sid freshId now =>
    cases hmap : mapGet st.users sid with
    | none => exact Or.inl ⟨[], by simp [serverStep, onDisconnect, hmap]⟩
    | some x =>
      exact Or.inl ⟨[{ id := freshId, text := x ++ " left the chat",
                       sender := "System", timestamp := now, readBy := [] }],
        by simp [serverStep, onDisconnect, hmap]⟩
  | readReceipt messageId reader =>
    cases hfi : findIndex (fun m => m.id == messageId) st.messages with
    | none => exact Or.inl ⟨[], by simp [serverStep, onReadReceipt, hfi]⟩
    | some i =>
      have hi : i < st.messages.length := findIndex_some_lt hfi
      have hget : st.messages[i]? = some (st.messages.get ⟨i, hi⟩) := by
        rw [List.getElem?_eq_getElem hi]
        simp [List.get_eq_getElem]
      by_cases hmem : reader ∈ st.messages[i].readBy
      · exact Or.inl ⟨[], by simp [serverStep, onReadReceipt, hfi, hget, hmem]⟩
      · refine Or.inr ⟨rfl, i, hi, reader, ?_⟩
        simp [serverStep, onReadReceipt, hfi, hget, hmem, List.get_eq_getElem]

/-- C5: under every event, the log only grows (no record is ever removed),
each existing record keeps its id, text, sender and timestamp, its `readBy`
is only extended (the old `readBy` stays an initial segment of the new one),
and any event other than a read receipt leaves every existing record
untouched. -/
theorem log_and_readBy_only_grow (e : SEvent) (st : ServerState) :
    st.messages.length ≤ (serverStep e st).1.messages.length
    ∧ (∀ i, ∀ hi : i < st.messages.length,
        ∀ hi' : i < (serverStep e st).1.messages.length,
        (((serverStep e st).1.messages.get ⟨i, hi'⟩).id
            = (st.messages.get ⟨i, hi⟩).id
         ∧ ((serverStep e st).1.messages.get ⟨i, hi'⟩).text
            = (st.messages.get ⟨i, hi⟩).text
         ∧ ((serverStep e st).1.messages.get ⟨i, hi'⟩).sender
            = (st.messages.get ⟨i, hi⟩).sender
         ∧ ((serverStep e st).1.messages.get ⟨i, hi'⟩).timestamp
            = (st.messages.get ⟨i, hi⟩).timestamp
         ∧ (st.messages.get ⟨i, hi⟩).readBy
            <+: ((serverStep e st).1.messages.get ⟨i, hi'⟩).readBy)
        ∧ (e.isReadReceipt = false →
           (serverStep e st).1.messages.get ⟨i, hi'⟩ = st.messages.get ⟨i, hi⟩)) := by
  rcases serverStep_messages_shape e st with ⟨t, ht⟩ | ⟨hrr, i0, hi0, r, ht⟩
  · constructor
    · rw [ht]
      simp
    · intro i hi hi'
      have hq : (serverStep e st).1.messages[i]? = st.messages[i]? := by
        rw [ht]
        exact List.getElem?_append_left hi
      have hg : (serverStep e st).1.messages.get ⟨i, hi'⟩ = st.messages.get ⟨i, hi⟩ :=
        get_eq_of_getElem?_eq hi hi' hq
      rw [hg]
      exact ⟨⟨rfl, rfl, rfl, rfl, ⟨[], List.append_nil _⟩⟩, fun _ => rfl⟩
  · constructor
    · rw [ht]
      simp
    · intro i hi hi'
      by_cases hii : i0 = i
      · subst hii
        have hq : (serverStep e st).1.messages[i0]? =
            some { st.messages.get ⟨i0, hi0⟩ with
                   readBy := (st.messages.get ⟨i0, hi0⟩).readBy ++ [r] } := by
          rw [ht]
          exact List.getElem?_set_self hi0
        have hq' := List.getElem?_eq_getElem hi'
        rw [hq] at hq'
        have hg : (serverStep e st).1.messages.get ⟨i0, hi'⟩ =
            { st.messages.get ⟨i0, hi0⟩ with
              readBy := (st.messages.get ⟨i0, hi0⟩).readBy ++ [r] } := by
          simpa [List.get_eq_getElem] using (Option.some.inj hq').symm
        rw [hg]
        refine ⟨⟨rfl, rfl, rfl, rfl, ⟨[r], rfl⟩⟩, ?_⟩
        intro hfalse
        rw [hrr] at hfalse
        cases hfalse
      · have hq : (serverStep e st).1.messages[i]? = st.messages[i]? := by
          rw [ht]
          exact List.getElem?_set_ne hii
        have hg : (serverStep e st).1.messages.get ⟨i, hi'⟩ = st.messages.get ⟨i, hi⟩ :=
          get_eq_of_getElem?_eq hi hi' hq
        rw [hg]
        exact ⟨⟨rfl, rfl, rfl, rfl, ⟨[], List.append_nil _⟩⟩, fun _ => rfl⟩

/-- Witness for C5 at an explicit input: Bea's read receipt extends `m1`'s
`readBy` while preserving the record's identity and the log's length. -/
theorem log_and_readBy_only_grow_witness :
    stA.messages.length
        ≤ (serverStep (SEvent.readReceipt "m1" "Bea") stA).1.messages.length
    ∧ ((serverStep (SEvent.readReceipt "m1" "Bea") stA).1.messages.get
          ⟨0, by decide⟩).id = (stA.messages.get ⟨0, by decide⟩).id
    ∧ (stA.messages.get ⟨0, by decide⟩).readBy
        <+: ((serverStep (SEvent.readReceipt "m1" "Bea") stA).1.messages.get
          ⟨0, by decide⟩).readBy := by
  have h := log_and_readBy_only_grow (SEvent.readReceipt "m1" "Bea") stA
  have h2 := h.2 0 (by decide) (by decide)
  exact ⟨h.1, h2.1.1, h2.1.2.2.2.2⟩

end Chat
